import Mathlib

/-!
Verification development for the `unusedargs` static-analysis command
(github.com/nishanths/unusedargs).

The repository's core is the `usages` package (`Find` / `makeResult` /
`inputs`) together with the driver (`main` / `classifyArgs` /
`handleFiles` / `isGenerated`).  The definitions below are a shallow
embedding of that code:

* Go `token.Position` values become `Position` (filename, line, column).
* The AST fragments the analysis inspects (`*ast.Ident`, `*ast.Field`,
  `*ast.FieldList`, function declarations and literals) become plain
  structures carrying exactly the data the analysis reads.  Parsing and
  type checking are external collaborators, so a parsed file is supplied
  as data, and the semantic resolver's `info.Uses` map is supplied as a
  list of resolution records (`Use`), each carrying the position of the
  declaration the identifier occurrence resolves to (`obj.Pos()` in Go).
* Go maps keyed by `token.Position` become association lists; a map
  update on an existing key is modelled by rewriting the entries with
  that key.
* Go strings are compared byte-lexicographically; since UTF-8 preserves
  code-point order, this is `charsLess` on the character list.
* `sort.Slice` guarantees only that the result is a permutation of the
  input that is sorted with respect to the supplied `less`; where the
  development needs an executable pipeline it refines this with the
  insertion sort `sortLe`, and the relational contract `sortSliceSpec`
  is used where the choice among tied elements matters.
-/

/-- Go `token.Position`, restricted to the fields the program reads
(`Filename`, `Line`, `Column`). -/
structure Position where
  filename : String
  line : Nat
  column : Nat
deriving DecidableEq

/-- Go `*ast.Ident`, restricted to `Name` and `NamePos`. -/
structure Ident where
  name : String
  namePos : Position
deriving DecidableEq

/-- Go `*ast.Field` as read by `inputs` and the type filters: the list of
declared names, and the semantic type of the field's type expression
(`info.TypeOf(field.Type).String()` in Go; `none` models a nil type as for
`*ast.Ellipsis`).  Named `AstField` because `Field` is taken in Lean. -/
structure AstField where
  names : List Ident
  typeName : Option String
deriving DecidableEq

/-- Go `*ast.FieldList`, restricted to its `List` field. -/
structure FieldList where
  list : List AstField
deriving DecidableEq

/-- `usages.FuncReceiver`. -/
def FuncReceiver : String := "receiver"

/-- `usages.FuncParam`. -/
def FuncParam : String := "param"

/-- `usages.funcInput`: one named receiver or parameter.  The Go struct
holds `ident *ast.Ident`, `field *ast.Field`, `kind string`,
`pos token.Pos`; the field pointer is flattened to the semantic type name
that the filters later extract from it. -/
structure FuncInput where
  ident : Ident
  typeName : Option String
  kind : String
  pos : Position
deriving DecidableEq

/-- `usages.inputs`: flatten the receiver field list (if any) and the
parameter field list into the ordered list of named inputs, receivers
first, grouped names flattened.  A field with an empty `Names` list
contributes nothing, exactly as in the source. -/
def inputs (recv : Option FieldList) (params : FieldList) : List FuncInput :=
  (match recv with
   | none => []
   | some r =>
     r.list.flatMap fun field =>
       field.names.map fun name =>
         { ident := name, typeName := field.typeName, kind := FuncReceiver, pos := name.namePos })
  ++ params.list.flatMap fun field =>
       field.names.map fun name =>
         { ident := name, typeName := field.typeName, kind := FuncParam, pos := name.namePos }

/-- `usages.isBlankIdent`: `name.Name == "_"`. -/
def isBlankIdent (name : Ident) : Bool :=
  name.name == "_"

/-- The candidate inputs of one function-like node: `usages.Find` iterates
over `inputs(...)` and skips an input when `isBlankIdent` holds, before
inserting the rest into the targets map. -/
def candidates (recv : Option FieldList) (params : FieldList) : List FuncInput :=
  (inputs recv params).filter fun i => !(isBlankIdent i.ident)

/-- Go `<` on strings, as the lexicographic order on the character
sequence (byte order and code-point order agree under UTF-8). -/
def charsLess : List Char → List Char → Bool
  | [], [] => false
  | [], _ :: _ => true
  | _ :: _, [] => false
  | a :: as, b :: bs =>
    if a < b then true
    else if b < a then false
    else charsLess as bs

/-- Go `s < t` for strings. -/
def strLess (a b : String) : Bool :=
  charsLess a.data b.data

theorem charsLess_asymm : ∀ (a b : List Char),
    charsLess a b = true → charsLess b a = false
  | [], [] => by simp [charsLess]
  | [], _ :: _ => by simp [charsLess]
  | _ :: _, [] => by simp [charsLess]
  | a :: as, b :: bs => by
    intro h
    by_cases hab : a < b
    · simp [charsLess, hab, lt_asymm hab]
    · by_cases hba : b < a
      · simp [charsLess, hab, hba] at h
      · simp only [charsLess, if_neg hab, if_neg hba] at h
        simp only [charsLess, if_neg hba, if_neg hab]
        exact charsLess_asymm as bs h

theorem charsLess_trans : ∀ (a b c : List Char),
    charsLess a b = true → charsLess b c = true → charsLess a c = true
  | [], [], _ => by simp [charsLess]
  | [], _ :: _, [] => by simp [charsLess]
  | [], _ :: _, _ :: _ => by simp [charsLess]
  | _ :: _, [], _ => by simp [charsLess]
  | _ :: _, _ :: _, [] => by simp [charsLess]
  | a :: as, b :: bs, c :: cs => by
    intro h1 h2
    by_cases hab : a < b
    · by_cases hbc : b < c
      · simp [charsLess, lt_trans hab hbc]
      · by_cases hcb : c < b
        · simp [charsLess, hbc, hcb] at h2
        · have hbeq : b = c := le_antisymm (le_of_not_lt hcb) (le_of_not_lt hbc)
          subst hbeq
          simp [charsLess, hab]
    · by_cases hba : b < a
      · simp [charsLess, hab, hba] at h1
      · have haeq : a = b := le_antisymm (le_of_not_lt hba) (le_of_not_lt hab)
        subst haeq
        simp only [charsLess, lt_irrefl, if_neg (lt_irrefl a)] at h1
        by_cases hac : a < c
        · simp [charsLess, hac]
        · by_cases hca : c < a
          · simp [charsLess, hac, hca] at h2
          · simp only [charsLess, if_neg hac, if_neg hca] at h2 ⊢
            exact charsLess_trans as bs cs h1 h2

theorem charsLess_conn : ∀ (a b : List Char),
    charsLess a b = false → charsLess b a = false → a = b
  | [], [] => by intro _ _; rfl
  | [], _ :: _ => by simp [charsLess]
  | _ :: _, [] => by simp [charsLess]
  | a :: as, b :: bs => by
    intro h1 h2
    by_cases hab : a < b
    · simp [charsLess, hab] at h1
    · by_cases hba : b < a
      · simp [charsLess, hba, hab] at h2
      · have haeq : a = b := le_antisymm (le_of_not_lt hba) (le_of_not_lt hab)
        subst haeq
        simp only [charsLess, if_neg (lt_irrefl a)] at h1 h2
        rw [charsLess_conn as bs h1 h2]

theorem strLess_asymm {a b : String} (h : strLess a b = true) : strLess b a = false :=
  charsLess_asymm a.data b.data h

theorem strLess_trans {a b c : String} (h1 : strLess a b = true) (h2 : strLess b c = true) :
    strLess a c = true :=
  charsLess_trans a.data b.data c.data h1 h2

theorem strLess_conn {a b : String} (h1 : strLess a b = false) (h2 : strLess b a = false) :
    a = b :=
  String.ext (charsLess_conn a.data b.data h1 h2)

/-- `genHdr`. -/
def genHdr : String := "// Code generated "

/-- `genFtr`. -/
def genFtr : String := " DO NOT EDIT."

/-- The line tokens of `bufio.ScanLines` before carriage-return
stripping: split at newline characters, with a final line without a
trailing newline still returned and a trailing newline not producing an
extra empty token. -/
def linesOf : List Char → List (List Char)
  | [] => []
  | c :: cs =>
    if c = '\n' then [] :: linesOf cs
    else
      match linesOf cs with
      | [] => [[c]]
      | l :: ls => (c :: l) :: ls

/-- The `dropCR` step of `bufio.ScanLines`: one trailing carriage return
is removed from the token. -/
def dropCRChars (cs : List Char) : List Char :=
  match cs.getLast? with
  | some c => if c = '\r' then cs.dropLast else cs
  | none => cs

/-- The sequence of tokens produced by `bufio.NewScanner` with the
default `ScanLines` split function on the file contents. -/
def scanLines (src : String) : List String :=
  (linesOf src.data).map fun cs => String.mk (dropCRChars cs)

/-- `isGenerated` (src/unusedargs.go): scan the lines of the file and
report whether some line carries the generated-code marker:
`bytes.HasPrefix(b, genHdr) && bytes.HasSuffix(b, genFtr) &&
len(b) >= len(genHdr)+len(genFtr)`. -/
def isGenerated (src : String) : Bool :=
  (scanLines src).any fun b =>
    genHdr.data.isPrefixOf b.data && genFtr.data.isSuffixOf b.data &&
      decide (genHdr.length + genFtr.length ≤ b.length)

/-- A resolution record from the semantic resolver: one entry of
`info.Uses` in Go, i.e. "the identifier occurrence `name` at `usePos`
resolves to the declaration at `declPos`" (`declPos` is `obj.Pos()`). -/
structure Use where
  name : String
  usePos : Position
  declPos : Position
deriving DecidableEq

/-- `usages.target`: a candidate input together with its enclosing
function's position and name, and the list of uses recorded for it. -/
structure Target where
  funcInput : FuncInput
  funcPosition : Position
  funcName : String
  uses : List Use
deriving DecidableEq

/-- `usages.Result`, restricted to the fields the driver reads.  The Go
struct's `Ident`, `Field` pointers are flattened to the identifier name
and the semantic type name. -/
structure Result where
  identName : String
  typeName : Option String
  kind : String
  uses : List Use
  position : Position
  funcPosition : Position
  funcName : String
deriving DecidableEq

/-- One iteration of the marking loop in `usages.makeResult`:
`t, ok := targets[fset.Position(obj.Pos())]; if ok { t.uses = append(t.uses, id);
targets[...] = t }`.  On the association list this rewrites the entries
whose key is the record's declaration position; when the key is absent the
list is unchanged (the `continue` branch). -/
def useStep (ts : List (Position × Target)) (u : Use) : List (Position × Target) :=
  ts.map fun e =>
    if e.1 = u.declPos then (e.1, { e.2 with uses := e.2.uses ++ [u] }) else e

/-- The whole marking loop of `usages.makeResult` over `info.Uses`. -/
def markUses (ts : List (Position × Target)) (us : List Use) : List (Position × Target) :=
  us.foldl useStep ts

theorem useStep_eq (ts : List (Position × Target)) (u : Use) :
    useStep ts u =
      ts.map fun e =>
        (e.1, { e.2 with uses := e.2.uses ++ if e.1 = u.declPos then [u] else [] }) := by
  unfold useStep
  apply List.map_congr_left
  intro e _
  by_cases h : e.1 = u.declPos <;> simp [h]

theorem markUses_eq (ts : List (Position × Target)) (us : List Use) :
    markUses ts us =
      ts.map fun e =>
        (e.1, { e.2 with uses := e.2.uses ++ us.filter fun u => u.declPos = e.1 }) := by
  induction us generalizing ts with
  | nil =>
    simp only [markUses, List.foldl_nil, List.filter_nil, List.append_nil]
    have h : (fun e : Position × Target => (e.1, { e.2 with uses := e.2.uses })) =
        fun e : Position × Target => e := by
      funext e
      rfl
    rw [h, List.map_id']
  | cons u us ih =>
    have h1 : markUses ts (u :: us) = markUses (useStep ts u) us := rfl
    rw [h1, ih, useStep_eq, List.map_map]
    apply List.map_congr_left
    intro e _
    simp only [Function.comp_apply, List.filter_cons]
    by_cases h : u.declPos = e.1
    · simp [h, List.append_assoc]
    · have h2 : ¬ e.1 = u.declPos := fun hc => h hc.symm
      simp [h, h2]

/-- The `less` closure passed to `sort.Slice` in `usages.makeResult` (and
in `findUnused`): compare by the filename of the enclosing function's
position, then its line, then its column, returning early at the first
strict difference. -/
def posLess (a b : Position) : Bool :=
  if strLess a.filename b.filename then true
  else if strLess b.filename a.filename then false
  else if a.line < b.line then true
  else if b.line < a.line then false
  else decide (a.column < b.column)

theorem posLess_asymm {a b : Position} (h : posLess a b = true) : posLess b a = false := by
  unfold posLess at h ⊢
  cases h1 : strLess a.filename b.filename with
  | true => simp [h1, strLess_asymm h1]
  | false =>
    cases h2 : strLess b.filename a.filename with
    | true => simp [h1, h2] at h
    | false =>
      simp only [h1, h2, if_neg, Bool.false_eq_true, if_false] at h ⊢
      by_cases h3 : a.line < b.line
      · simp [h3, Nat.lt_asymm h3]
      · by_cases h4 : b.line < a.line
        · simp [h3, h4] at h
        · simp only [h3, h4, if_false] at h ⊢
          simp only [decide_eq_true_eq] at h
          simp [Nat.lt_asymm h]

theorem posLess_trans {a b c : Position} (h1 : posLess a b = true) (h2 : posLess b c = true) :
    posLess a c = true := by
  unfold posLess at h1 h2 ⊢
  cases hab : strLess a.filename b.filename with
  | true =>
    cases hbc : strLess b.filename c.filename with
    | true => simp [strLess_trans hab hbc]
    | false =>
      cases hcb : strLess c.filename b.filename with
      | true => simp [hbc, hcb] at h2
      | false =>
        have heq : b.filename = c.filename := strLess_conn hbc hcb
        simp [← heq, hab]
  | false =>
    cases hba : strLess b.filename a.filename with
    | true => simp [hab, hba] at h1
    | false =>
      have heqf : a.filename = b.filename := strLess_conn hab hba
      simp only [hab, hba, Bool.false_eq_true, if_false] at h1
      cases hbc : strLess b.filename c.filename with
      | true => simp [heqf, hbc]
      | false =>
        cases hcb : strLess c.filename b.filename with
        | true => simp [hbc, hcb] at h2
        | false =>
          have heqf2 : b.filename = c.filename := strLess_conn hbc hcb
          simp only [hbc, hcb, Bool.false_eq_true, if_false] at h2
          have hfac : strLess a.filename c.filename = false := by
            rw [heqf, heqf2]
            cases hx : strLess c.filename c.filename with
            | false => rfl
            | true => exact absurd (strLess_asymm hx) (by simp [hx])
          have hfca : strLess c.filename a.filename = false := by
            rw [heqf, heqf2]
            cases hx : strLess c.filename c.filename with
            | false => rfl
            | true => exact absurd (strLess_asymm hx) (by simp [hx])
          simp only [hfac, hfca, Bool.false_eq_true, if_false]
          by_cases hl1 : a.line < b.line
          · by_cases hl2 : b.line < c.line
            · simp [Nat.lt_trans hl1 hl2]
            · by_cases hl3 : c.line < b.line
              · simp [hl2, hl3] at h2
              · have : b.line = c.line := Nat.le_antisymm (Nat.le_of_not_lt hl3) (Nat.le_of_not_lt hl2)
                simp [← this, hl1]
          · by_cases hl4 : b.line < a.line
            · simp [hl1, hl4] at h1
            · have heql : a.line = b.line :=
                Nat.le_antisymm (Nat.le_of_not_lt hl4) (Nat.le_of_not_lt hl1)
              simp only [hl1, hl4, if_false, decide_eq_true_eq] at h1
              by_cases hl5 : b.line < c.line
              · simp [heql, hl5]
              · by_cases hl6 : c.line < b.line
                · simp [hl5, hl6] at h2
                · have heql2 : b.line = c.line :=
                    Nat.le_antisymm (Nat.le_of_not_lt hl6) (Nat.le_of_not_lt hl5)
                  simp only [hl5, hl6, if_false, decide_eq_true_eq] at h2
                  have g1 : ¬ a.line < c.line := by omega
                  have g2 : ¬ c.line < a.line := by omega
                  simp only [g1, g2, if_false, decide_eq_true_eq]
                  omega

theorem posLess_conn {a b : Position} (h1 : posLess a b = false) (h2 : posLess b a = false) :
    a = b := by
  unfold posLess at h1 h2
  cases hab : strLess a.filename b.filename with
  | true => simp [hab] at h1
  | false =>
    cases hba : strLess b.filename a.filename with
    | true => simp [hba] at h2
    | false =>
      have heqf : a.filename = b.filename := strLess_conn hab hba
      simp only [hab, hba, Bool.false_eq_true, if_false] at h1 h2
      by_cases hl1 : a.line < b.line
      · simp [hl1] at h1
      · by_cases hl2 : b.line < a.line
        · simp [hl2] at h2
        · simp only [hl1, hl2, if_false, decide_eq_true_eq] at h1 h2
          have heql : a.line = b.line := by omega
          have heqc : a.column = b.column := by
            simp only [decide_eq_false_iff_not] at h1 h2
            omega
          cases a
          cases b
          simp_all

/-- The non-strict order a `sort.Slice` output satisfies for adjacent
elements: `!less(b, a)`. -/
def posLe (a b : Position) : Bool :=
  !posLess b a

theorem posLe_total (a b : Position) : (posLe a b || posLe b a) = true := by
  unfold posLe
  cases h1 : posLess b a with
  | false => simp
  | true => simp [posLess_asymm h1]

theorem posLe_trans {a b c : Position} (h1 : posLe a b = true) (h2 : posLe b c = true) :
    posLe a c = true := by
  unfold posLe at h1 h2 ⊢
  simp only [Bool.not_eq_true'] at h1 h2 ⊢
  cases h3 : posLess c a with
  | false => rfl
  | true =>
    cases h4 : posLess b c with
    | true => exact absurd (posLess_trans h4 h3) (by simp [h1])
    | false =>
      have hbc : b = c := posLess_conn h4 h2
      rw [hbc] at h1
      exact absurd h3 (by simp [h1])

/-- Insert an element into a sorted list, keeping it sorted with respect
to the non-strict comparator `le`: the executable refinement of the
`sort.Slice` calls. -/
def insertLe {α : Type} (le : α → α → Bool) (a : α) : List α → List α
  | [] => [a]
  | b :: l => if le a b then a :: b :: l else b :: insertLe le a l

/-- Insertion sort by the non-strict comparator `le`: one valid outcome
of a `sort.Slice` call whose `less` is the strict version of `le`. -/
def sortLe {α : Type} (le : α → α → Bool) : List α → List α
  | [] => []
  | a :: l => insertLe le a (sortLe le l)

theorem insertLe_perm {α : Type} (le : α → α → Bool) (a : α) :
    ∀ l : List α, (insertLe le a l).Perm (a :: l)
  | [] => List.Perm.refl _
  | b :: l => by
    unfold insertLe
    by_cases h : le a b = true
    · rw [if_pos h]
    · rw [if_neg h]
      exact ((insertLe_perm le a l).cons b).trans (List.Perm.swap a b l)

theorem sortLe_perm {α : Type} (le : α → α → Bool) :
    ∀ l : List α, (sortLe le l).Perm l
  | [] => List.Perm.refl _
  | a :: l => (insertLe_perm le a (sortLe le l)).trans ((sortLe_perm le l).cons a)

theorem insertLe_pairwise {α : Type} (le : α → α → Bool)
    (htot : ∀ x y, (le x y || le y x) = true)
    (htr : ∀ x y z, le x y = true → le y z = true → le x z = true) (a : α) :
    ∀ l : List α, l.Pairwise (fun x y => le x y = true) →
      (insertLe le a l).Pairwise fun x y => le x y = true
  | [], _ => by simp [insertLe]
  | b :: l, h => by
    unfold insertLe
    rcases List.pairwise_cons.mp h with ⟨hb, hl⟩
    by_cases hab : le a b = true
    · rw [if_pos hab]
      refine List.pairwise_cons.mpr ⟨?_, h⟩
      intro y hy
      rcases List.mem_cons.mp hy with rfl | hy'
      · exact hab
      · exact htr a b y hab (hb y hy')
    · rw [if_neg hab]
      have hba : le b a = true := by
        have hor := htot a b
        rw [Bool.or_eq_true] at hor
        rcases hor with h' | h'
        · exact absurd h' hab
        · exact h'
      refine List.pairwise_cons.mpr ⟨?_, insertLe_pairwise le htot htr a l hl⟩
      intro y hy
      have hy' := (insertLe_perm le a l).mem_iff.mp hy
      rcases List.mem_cons.mp hy' with rfl | hy''
      · exact hba
      · exact hb y hy''

theorem sortLe_pairwise {α : Type} (le : α → α → Bool)
    (htot : ∀ x y, (le x y || le y x) = true)
    (htr : ∀ x y z, le x y = true → le y z = true → le x z = true) :
    ∀ l : List α, (sortLe le l).Pairwise fun x y => le x y = true
  | [] => by simp [sortLe]
  | a :: l => insertLe_pairwise le htot htr a _ (sortLe_pairwise le htot htr l)

/-- The `less` closure of `sort.Slice` in `usages.makeResult`, lifted to
targets: it compares only the enclosing functions' positions. -/
def targetLess (a b : Target) : Bool :=
  posLess a.funcPosition b.funcPosition

/-- The non-strict order on targets induced by `targetLess`. -/
def targetLe (a b : Target) : Bool :=
  !targetLess b a

theorem targetLe_total (a b : Target) : (targetLe a b || targetLe b a) = true :=
  posLe_total a.funcPosition b.funcPosition

theorem targetLe_trans (a b c : Target) (h1 : targetLe a b = true) (h2 : targetLe b c = true) :
    targetLe a c = true :=
  posLe_trans (a := a.funcPosition) h1 h2

/-- The string comparator of the `sort.Slice` calls in `handleFiles`
(`warnsOrder`/`resultsOrder` are sorted by `<`), as the non-strict order
a sorted output satisfies. -/
def stringLe (a b : String) : Bool :=
  !strLess b a

theorem stringLe_total (a b : String) : (stringLe a b || stringLe b a) = true := by
  unfold stringLe
  cases h1 : strLess b a with
  | false => simp
  | true => simp [strLess_asymm h1]

theorem stringLe_trans (a b c : String) (h1 : stringLe a b = true) (h2 : stringLe b c = true) :
    stringLe a c = true := by
  unfold stringLe at h1 h2 ⊢
  simp only [Bool.not_eq_true'] at h1 h2 ⊢
  cases h3 : strLess c a with
  | false => rfl
  | true =>
    cases h4 : strLess b c with
    | true => exact absurd (strLess_trans h4 h3) (by simp [h1])
    | false =>
      have hbc : b = c := strLess_conn h4 h2
      rw [hbc] at h1
      exact absurd h3 (by simp [h1])

/-- The contract of Go's `sort.Slice`: the output is some permutation of
the input in which no later element is `less` than an earlier one.
`sort.Slice` is documented not to be stable, so any list satisfying this
relation is a possible outcome. -/
def sortSliceSpec (less : Target → Target → Bool) (input output : List Target) : Prop :=
  output.Perm input ∧ output.Pairwise fun a b => less b a = false

/-- Build one `usages.Result` from a marked target (the loop at the end
of `usages.makeResult`). -/
def resultOfTarget (t : Target) : Result :=
  { identName := t.funcInput.ident.name
    typeName := t.funcInput.typeName
    kind := t.funcInput.kind
    uses := t.uses
    position := t.funcInput.pos
    funcPosition := t.funcPosition
    funcName := t.funcName }

/-- `usages.makeResult`: mark each target with the uses that resolve to
its declaration position, sort the targets by the enclosing function's
(filename, line, column), and convert them to `Result`s.  `sortLe
targetLe` stands in for `sort.Slice` as one valid sorted permutation. -/
def makeResult (ts : List (Position × Target)) (us : List Use) : List Result :=
  (sortLe targetLe ((markUses ts us).map Prod.snd)).map resultOfTarget

/-- A function-like AST node as visited by the walk in `usages.Find`:
for an `*ast.FuncDecl` the position is `c.Name.Pos()` and the name is
`c.Name.Name`; for an `*ast.FuncLit` the position is `c.Pos()`, the name
is empty, and `recv` is `nil`. -/
structure FuncNode where
  recv : Option FieldList
  params : FieldList
  name : String
  pos : Position
deriving DecidableEq

/-- The parsed form of one source file, as produced by the external
parser: its package clause name and the function-like nodes the AST walk
visits, in walk order. -/
structure ParsedData where
  pkg : String
  funcs : List FuncNode
deriving DecidableEq

/-- The target entries one function node contributes to the package's
targets map in `usages.Find`: every non-blank input, keyed by its
declaration position, with an empty use list. -/
def targetsOfFunc (fn : FuncNode) : List (Position × Target) :=
  (candidates fn.recv fn.params).map fun i =>
    (i.pos, { funcInput := i, funcPosition := fn.pos, funcName := fn.name, uses := [] })

/-- The targets map `allTargets[pkg]` built by the walk in `usages.Find`,
as an association list: all non-blank inputs of all functions of the
package's files.  Declaration positions are unique within a package, so
appending entries models the Go map inserts. -/
def buildTargets (pfiles : List ParsedData) (pkg : String) : List (Position × Target) :=
  ((pfiles.filter fun f => f.pkg = pkg).flatMap fun f => f.funcs).flatMap targetsOfFunc

/-- The list of distinct package names among the parsed files
(`uniquePkgNames` in `usages.Find`). -/
def pkgNames (pfiles : List ParsedData) : List String :=
  (pfiles.map fun f => f.pkg).dedup

/-- One finding as printed by the report loop of `handleFiles`: the
package it came from, the data interpolated into the report line, and
the position of the unused input itself (`r.Position`, used for the
generated-file check). -/
structure Finding where
  pkg : String
  funcPosition : Position
  funcName : String
  kind : String
  identName : String
  position : Position
deriving DecidableEq

/-- The body of the print loop in `handleFiles` (strict draft,
src/unusedargs.go): skip results with uses, skip results declared in
generated files, substitute the `"func"` sentinel for an empty function
name. -/
def emitPkg (genOf : String → Bool) (pkg : String) (rs : List Result) : List Finding :=
  (rs.filter fun r => r.uses.isEmpty && !genOf r.position.filename).map fun r =>
    { pkg := pkg
      funcPosition := r.funcPosition
      funcName := if r.funcName = "" then "func" else r.funcName
      kind := r.kind
      identName := r.identName
      position := r.position }

/-- The report phase of `handleFiles` over the output of `usages.Find`:
package names are sorted (`resultsOrder`), and each package's results —
already sorted by `makeResult` — are filtered and printed in order. -/
def printResults (pfiles : List ParsedData) (uses : String → List Use)
    (genOf : String → Bool) : List Finding :=
  (sortLe stringLe (pkgNames pfiles)).flatMap fun pkg =>
    emitPkg genOf pkg (makeResult (buildTargets pfiles pkg) (uses pkg))

/-- `token.Position.String()`: `file:line:column`. -/
def posToString (p : Position) : String :=
  p.filename ++ ":" ++ toString p.line ++ ":" ++ toString p.column

/-- One report line:
`fmt.Fprintf(output, "%s: %s has unused %s %s\n", ...)`. -/
def renderFinding (f : Finding) : String :=
  posToString f.funcPosition ++ ": " ++ f.funcName ++ " has unused " ++
    f.kind ++ " " ++ f.identName ++ "\n"

/-- The bytes written to the report sink for a list of findings. -/
def renderReport (fs : List Finding) : String :=
  String.join (fs.map renderFinding)

/-- One file as supplied to `handleFiles`: its path, its raw contents,
whether `ioutil.ReadFile` succeeds, and the external parser's output
(`none` models a parse error). -/
structure SrcFile where
  name : String
  content : String
  readable : Bool
  parsed : Option ParsedData
deriving DecidableEq

/-- The observable outcome of one `handleFiles` run followed by
`os.Exit(exitCode)` in `main`: the process exit status, whether the run
ended in `log.Fatal`, the findings printed to the report sink, and the
files skipped with a warning. -/
structure RunResult where
  exit : Nat
  fatal : Bool
  findings : List Finding
  skipped : List String
deriving DecidableEq

/-- The files kept after the read loop of `handleFiles` (the `contents`
map). -/
def keptFiles (files : List SrcFile) : List SrcFile :=
  files.filter fun f => f.readable

/-- The parsed data of the kept files. -/
def parsedOf (files : List SrcFile) : List ParsedData :=
  (keptFiles files).filterMap fun f => f.parsed

/-- The generated-file predicate applied to `contents[r.Position.Filename]`
in the print loop: look the file up among the kept files and test its
contents; a missing key yields a nil slice, for which `isGenerated` is
false. -/
def genOfFiles (files : List SrcFile) (fn : String) : Bool :=
  match (keptFiles files).find? fun f => f.name = fn with
  | some f => isGenerated f.content
  | none => false

/-- `handleFiles` (strict draft, src/unusedargs.go) followed by
`os.Exit(exitCode)` in `main`:

1. read each file; on failure `-strict` is fatal, otherwise the file is
   skipped with a warning;
2. `usages.Find` parses the kept files; any parse error is returned as
   `err` and `handleFiles` calls `log.Fatal(err)` — in both modes;
3. any type-check warning is fatal under `-strict`;
4. otherwise the findings are printed and the exit status is 1 exactly
   when at least one finding was printed.

`log.Fatal` exits with status 1.  The semantic resolver is external:
`uses` gives each package's `info.Uses` records and `warn` says whether
type checking the package reported an error. -/
def runAnalysis (strict : Bool) (files : List SrcFile) (uses : String → List Use)
    (warn : String → Bool) : RunResult :=
  if strict && files.any fun f => !f.readable then
    { exit := 1, fatal := true, findings := [], skipped := [] }
  else if (keptFiles files).any fun f => f.parsed.isNone then
    { exit := 1, fatal := true, findings := [],
      skipped := (files.filter fun f => !f.readable).map fun f => f.name }
  else if strict && (pkgNames (parsedOf files)).any warn then
    { exit := 1, fatal := true, findings := [],
      skipped := (files.filter fun f => !f.readable).map fun f => f.name }
  else
    { exit := if (printResults (parsedOf files) uses (genOfFiles files)).isEmpty then 0 else 1
      fatal := false
      findings := printResults (parsedOf files) uses (genOfFiles files)
      skipped := (files.filter fun f => !f.readable).map fun f => f.name }

/-- `main` for an invocation whose arguments classified as files:
`classifyArgs` returned `(dirsRun, filesRun, pkgsRun, ...)`; when the
counters do not sum to 1, `usage()` exits with status 2; otherwise the
files branch runs `handleFiles` and `main` exits with `exitCode`. -/
def mainRun (strict : Bool) (dirsRun filesRun pkgsRun : Nat) (files : List SrcFile)
    (uses : String → List Use) (warn : String → Bool) : RunResult :=
  if dirsRun + filesRun + pkgsRun ≠ 1 then
    { exit := 2, fatal := false, findings := [], skipped := [] }
  else
    runAnalysis strict files uses warn

/-- The ignored-type test of the print loop in the `-ignore` draft of
`handleFiles`: `t := typeInfo[pkg].TypeOf(r.Field.Type); if t != nil {
_, ok := ignoreTypes[t.String()]; if ok { continue } }`. -/
def matchIgnore (ignoreTy : List String) : Option String → Bool
  | some t => ignoreTy.contains t
  | none => false

/-- The print loop of the `-ignore` draft of `handleFiles` over one
package's results: a result is printed when it has no uses and its
declared type is not in the ignored-type set. -/
def printResultsIgnore (ignoreTy : List String) (rs : List Result) : List Result :=
  rs.filter fun r => r.uses.isEmpty && !(matchIgnore ignoreTy r.typeName)

/-- `strings.HasSuffix(arg, "/...")`. -/
def hasDotsSuffix (arg : String) : Bool :=
  "/...".data.isSuffixOf arg.data

/-- `arg[:len(arg)-len("/...")]`: strip the 4-byte `/...` suffix (the
suffix is ASCII, so dropping 4 characters drops 4 bytes whenever the
suffix is present). -/
def stripDotsSuffix (arg : String) : String :=
  String.mk (arg.data.take (arg.data.length - 4))

/-- One iteration of `classifyArgs` (src/args.go): an argument ending in
`/...` naming a directory marks the run as a directory run and expands
to all packages below it; a directory marks a directory run; an existing
path marks a file run; anything else marks a package run. -/
def classifyStep (isDir fileExists : String → Bool) (allPkgs : String → List String)
    (acc : Nat × Nat × Nat × List String) (arg : String) : Nat × Nat × Nat × List String :=
  if hasDotsSuffix arg && isDir (stripDotsSuffix arg) then
    (1, acc.2.1, acc.2.2.1, acc.2.2.2 ++ allPkgs arg)
  else if isDir arg then
    (1, acc.2.1, acc.2.2.1, acc.2.2.2 ++ [arg])
  else if fileExists arg then
    (acc.1, 1, acc.2.2.1, acc.2.2.2 ++ [arg])
  else
    (acc.1, acc.2.1, 1, acc.2.2.2 ++ [arg])

/-- `classifyArgs` (src/args.go): fold `classifyStep` over the arguments
starting from zero counters and no results.  The file system is supplied
as the predicates `isDir` / `fileExists` and the expansion
`allPackagesInFS` as `allPkgs`. -/
def classifyArgs (isDir fileExists : String → Bool) (allPkgs : String → List String)
    (args : List String) : Nat × Nat × Nat × List String :=
  args.foldl (classifyStep isDir fileExists allPkgs) (0, 0, 0, [])

/-- The four branches of the `switch` in `main` over
`(dirsRun, filesRun, pkgsRun)`. -/
inductive Dispatch where
  | dirs
  | files
  | pkgs
  | panicBranch
deriving DecidableEq

/-- The `switch` in `main`: the first counter equal to 1 selects the
branch; the `default` branch panics. -/
def mainSwitch (dirsRun filesRun pkgsRun : Nat) : Dispatch :=
  if dirsRun = 1 then Dispatch.dirs
  else if filesRun = 1 then Dispatch.files
  else if pkgsRun = 1 then Dispatch.pkgs
  else Dispatch.panicBranch

/-- C7: for every function-like node, a blank-named input and an unnamed
input (empty `Names` list) each produce no candidate, while every
non-blank named receiver or parameter produces exactly one candidate,
receiver names first and parameter names in declaration order, grouped
names flattened into independent candidates. -/
theorem candidates_characterization (recv : Option FieldList) (params : FieldList) :
    (candidates recv params =
      (match recv with
       | none => ([] : List FuncInput)
       | some r =>
         r.list.flatMap fun field =>
           (field.names.filter fun n => !(isBlankIdent n)).map fun name =>
             ({ ident := name, typeName := field.typeName, kind := FuncReceiver,
                pos := name.namePos } : FuncInput))
      ++ params.list.flatMap fun field =>
           (field.names.filter fun n => !(isBlankIdent n)).map fun name =>
             ({ ident := name, typeName := field.typeName, kind := FuncParam,
                pos := name.namePos } : FuncInput))
    ∧ ∀ i ∈ candidates recv params, i.ident.name ≠ "_" := by
  constructor
  · cases recv with
    | none =>
      simp [candidates, inputs, List.filter_append, List.filter_flatMap, List.filter_map,
        Function.comp_def]
    | some r =>
      simp [candidates, inputs, List.filter_append, List.filter_flatMap, List.filter_map,
        Function.comp_def]
  · intro i hi
    have h2 := (List.mem_filter.mp hi).2
    simp only [Bool.not_eq_true', isBlankIdent] at h2
    intro hc
    rw [hc] at h2
    simp at h2

/-- C10: `isGenerated` is true exactly when some line of the file starts
with the `genHdr` marker, ends with the `genFtr` marker, and is at least
as long as the two markers combined; the line may be anywhere in the
file. -/
theorem isGenerated_iff (src : String) :
    isGenerated src = true ↔
      ∃ line ∈ scanLines src,
        genHdr.data <+: line.data ∧ genFtr.data <:+ line.data ∧
          genHdr.length + genFtr.length ≤ line.length := by
  unfold isGenerated
  rw [List.any_eq_true]
  constructor
  · rintro ⟨b, hb, hcond⟩
    simp only [Bool.and_eq_true, decide_eq_true_eq] at hcond
    exact ⟨b, hb, List.isPrefixOf_iff_prefix.mp hcond.1.1,
      List.isSuffixOf_iff_suffix.mp hcond.1.2, hcond.2⟩
  · rintro ⟨b, hb, h1, h2, h3⟩
    refine ⟨b, hb, ?_⟩
    simp [List.isPrefixOf_iff_prefix.mpr h1, List.isSuffixOf_iff_suffix.mpr h2, h3]

/-- C9: each counter produced by `classifyArgs` is 0 or 1, so whenever
their sum is 1 the `switch` in `main` selects one of the three real
branches and the `default` panic branch is unreachable. -/
theorem classify_counters (isDir fileExists : String → Bool)
    (allPkgs : String → List String) (args : List String) (d f p : Nat) (rs : List String)
    (h : classifyArgs isDir fileExists allPkgs args = (d, f, p, rs)) :
    (d = 0 ∨ d = 1) ∧ (f = 0 ∨ f = 1) ∧ (p = 0 ∨ p = 1) ∧
      (d + f + p = 1 → mainSwitch d f p ≠ Dispatch.panicBranch) := by
  have key : ∀ (args' : List String) (acc : Nat × Nat × Nat × List String),
      ((acc.1 = 0 ∨ acc.1 = 1) ∧ (acc.2.1 = 0 ∨ acc.2.1 = 1) ∧
        (acc.2.2.1 = 0 ∨ acc.2.2.1 = 1)) →
      (((args'.foldl (classifyStep isDir fileExists allPkgs) acc).1 = 0 ∨
        (args'.foldl (classifyStep isDir fileExists allPkgs) acc).1 = 1) ∧
       ((args'.foldl (classifyStep isDir fileExists allPkgs) acc).2.1 = 0 ∨
        (args'.foldl (classifyStep isDir fileExists allPkgs) acc).2.1 = 1) ∧
       ((args'.foldl (classifyStep isDir fileExists allPkgs) acc).2.2.1 = 0 ∨
        (args'.foldl (classifyStep isDir fileExists allPkgs) acc).2.2.1 = 1)) := by
    intro args'
    induction args' with
    | nil => intro acc hacc; simpa using hacc
    | cons a as ih =>
      intro acc hacc
      rw [List.foldl_cons]
      apply ih
      rcases hacc with ⟨h1, h2, h3⟩
      unfold classifyStep
      split_ifs
      · exact ⟨Or.inr rfl, h2, h3⟩
      · exact ⟨Or.inr rfl, h2, h3⟩
      · exact ⟨h1, Or.inr rfl, h3⟩
      · exact ⟨h1, h2, Or.inr rfl⟩
  have hres := key args (0, 0, 0, []) ⟨Or.inl rfl, Or.inl rfl, Or.inl rfl⟩
  unfold classifyArgs at h
  rw [h] at hres
  refine ⟨hres.1, hres.2.1, hres.2.2, ?_⟩
  intro hsum
  rcases hres.1 with hd | hd
  · subst hd
    rcases hres.2.1 with hf | hf
    · subst hf
      rcases hres.2.2 with hp | hp
      · subst hp
        exact absurd hsum (by decide)
      · subst hp; decide
    · subst hf; simp [mainSwitch]
  · subst hd; simp [mainSwitch]

/-- Witness for C9 at a concrete invocation: one existing file argument
yields counters (0, 1, 0) and the file branch. -/
theorem classify_counters_witness :
    ((0 : Nat) = 0 ∨ (0 : Nat) = 1) ∧ ((1 : Nat) = 0 ∨ (1 : Nat) = 1) ∧
      ((0 : Nat) = 0 ∨ (0 : Nat) = 1) ∧
      (0 + 1 + 0 = 1 → mainSwitch 0 1 0 ≠ Dispatch.panicBranch) :=
  classify_counters (fun _ => false) (fun _ => true) (fun _ => []) ["main.go"] 0 1 0
    ["main.go"] (by decide)

/-- C5: an unused result whose declared type's fully-qualified name is in
the ignored-type set is suppressed by the print loop, and one whose type
is not in the set is printed. -/
theorem ignoredType_filter (ignoreTy : List String) (rs : List Result) (r : Result)
    (t : String) (hr : r ∈ rs) (hu : r.uses = []) (ht : r.typeName = some t) :
    (t ∈ ignoreTy → r ∉ printResultsIgnore ignoreTy rs) ∧
      (t ∉ ignoreTy → r ∈ printResultsIgnore ignoreTy rs) := by
  unfold printResultsIgnore
  constructor
  · intro hmem hcon
    have hpred := (List.mem_filter.mp hcon).2
    rw [Bool.and_eq_true] at hpred
    have h2 := hpred.2
    rw [ht] at h2
    simp only [matchIgnore, Bool.not_eq_true'] at h2
    simp at h2
    exact h2 hmem
  · intro hmem
    refine List.mem_filter.mpr ⟨hr, ?_⟩
    rw [Bool.and_eq_true]
    refine ⟨by simp [hu], ?_⟩
    rw [ht]
    simp [matchIgnore, hmem]

/-- Witness data for C5: an unused parameter of the ignored type
`context.Context` and an unused parameter of another type. -/
def ignoredResult : Result :=
  { identName := "ctx", typeName := some "context.Context", kind := FuncParam, uses := [],
    position := ⟨"m.go", 2, 12⟩, funcPosition := ⟨"m.go", 2, 6⟩, funcName := "h" }

/-- Witness data for C5: the not-ignored unused parameter. -/
def otherResult : Result :=
  { identName := "s", typeName := some "string", kind := FuncParam, uses := [],
    position := ⟨"m.go", 2, 30⟩, funcPosition := ⟨"m.go", 2, 6⟩, funcName := "h" }

/-- Witness for C5: with ignore-set `{context.Context}`, the
`context.Context` parameter is suppressed and the `string` parameter is
still printed. -/
theorem ignoredType_filter_witness :
    ignoredResult ∉ printResultsIgnore ["context.Context"] [ignoredResult, otherResult] ∧
      otherResult ∈ printResultsIgnore ["context.Context"] [ignoredResult, otherResult] :=
  ⟨(ignoredType_filter ["context.Context"] [ignoredResult, otherResult] ignoredResult
      "context.Context" (by simp) rfl rfl).1 (by simp),
   (ignoredType_filter ["context.Context"] [ignoredResult, otherResult] otherResult
      "string" (by simp) rfl rfl).2 (by simp)⟩

/-- C1: a candidate input's result is unused if and only if no resolution
record in the package's use mapping targets the candidate's declaration
position — the join is keyed by position, never by name.  The result's
`Uses` is exactly the sub-list of records resolving to that position. -/
theorem unused_iff_no_use_resolves (ts : List (Position × Target)) (us : List Use)
    (p : Position) (t : Target) (hmem : (p, t) ∈ ts) (hpos : t.funcInput.pos = p)
    (hinit : t.uses = []) :
    ∃ r ∈ makeResult ts us,
      r.position = p ∧ r.identName = t.funcInput.ident.name ∧
        r.uses = (us.filter fun u => u.declPos = p) ∧
        (r.uses = [] ↔ ∀ u ∈ us, u.declPos ≠ p) := by
  have hmark : (p, ({ t with uses := us.filter fun u => u.declPos = p } : Target)) ∈
      markUses ts us := by
    rw [markUses_eq]
    have hm := List.mem_map_of_mem (fun e : Position × Target =>
      (e.1, ({ e.2 with uses := e.2.uses ++ us.filter fun u => u.declPos = e.1 } : Target))) hmem
    simpa [hinit] using hm
  have hsnd : ({ t with uses := us.filter fun u => u.declPos = p } : Target) ∈
      (markUses ts us).map Prod.snd :=
    List.mem_map_of_mem Prod.snd hmark
  have hsort : ({ t with uses := us.filter fun u => u.declPos = p } : Target) ∈
      sortLe targetLe ((markUses ts us).map Prod.snd) :=
    ((sortLe_perm targetLe _).mem_iff).mpr hsnd
  refine ⟨resultOfTarget { t with uses := us.filter fun u => u.declPos = p },
    List.mem_map_of_mem resultOfTarget hsort, ?_, rfl, rfl, ?_⟩
  · simpa [resultOfTarget] using hpos
  · simp only [resultOfTarget]
    rw [List.filter_eq_nil_iff]
    simp

/-- Witness data for C1: declaration position of the outer parameter
`n`. -/
def shadowParamPos : Position := ⟨"f.go", 3, 8⟩

/-- Witness data for C1: declaration position of the inner block-local
variable also named `n`. -/
def shadowInnerPos : Position := ⟨"f.go", 4, 6⟩

/-- Witness data for C1: the target for the outer parameter `n`. -/
def shadowTarget : Target :=
  { funcInput :=
      { ident := { name := "n", namePos := shadowParamPos },
        typeName := some "int", kind := FuncParam, pos := shadowParamPos },
    funcPosition := ⟨"f.go", 3, 6⟩, funcName := "f", uses := [] }

/-- Witness data for C1: the only occurrence of `n` resolves to the inner
declaration, not the parameter. -/
def shadowUses : List Use :=
  [{ name := "n", usePos := ⟨"f.go", 5, 2⟩, declPos := shadowInnerPos }]

/-- Witness for C1, the shadowing scenario: an occurrence spelled `n`
that resolves to the inner declaration does not satisfy the outer
parameter `n`, which is still reported unused. -/
theorem unused_iff_no_use_resolves_witness :
    ∃ r ∈ makeResult [(shadowParamPos, shadowTarget)] shadowUses,
      r.position = shadowParamPos ∧ r.identName = "n" ∧ r.uses = [] := by
  obtain ⟨r, hr, hp, hn, hus, -⟩ :=
    unused_iff_no_use_resolves [(shadowParamPos, shadowTarget)] shadowUses shadowParamPos
      shadowTarget (by simp) (by decide) (by decide)
  refine ⟨r, hr, hp, ?_, ?_⟩
  · rw [hn]
    decide
  · rw [hus]
    decide

/-- Every finding printed by the report loop survived the generated-file
check: the predicate is false at the finding's declaration file. -/
theorem mem_printResults_not_generated (pfiles : List ParsedData) (uses : String → List Use)
    (genOf : String → Bool) (fd : Finding) (h : fd ∈ printResults pfiles uses genOf) :
    genOf fd.position.filename = false := by
  unfold printResults at h
  rw [List.mem_flatMap] at h
  obtain ⟨pkg, -, hfd⟩ := h
  unfold emitPkg at hfd
  rw [List.mem_map] at hfd
  obtain ⟨r, hr, rfl⟩ := hfd
  have hpred := (List.mem_filter.mp hr).2
  rw [Bool.and_eq_true] at hpred
  simpa using hpred.2

/-- C4: a readable file whose contents satisfy the generated-file
predicate contributes zero findings: no printed finding's declaration
position lies in that file. -/
theorem generated_file_suppressed (strict : Bool) (files : List SrcFile)
    (uses : String → List Use) (warn : String → Bool) (g : SrcFile)
    (hmem : g ∈ files) (hread : g.readable = true) (hgen : isGenerated g.content = true)
    (hnd : (files.map fun f => f.name).Nodup) :
    ∀ fd ∈ (runAnalysis strict files uses warn).findings, fd.position.filename ≠ g.name := by
  intro fd hfd hcon
  unfold runAnalysis at hfd
  split at hfd
  · simp at hfd
  · split at hfd
    · simp at hfd
    · split at hfd
      · simp at hfd
      · have hgo := mem_printResults_not_generated _ _ _ _ hfd
        rw [hcon] at hgo
        unfold genOfFiles at hgo
        have hkept : g ∈ keptFiles files := List.mem_filter.mpr ⟨hmem, hread⟩
        cases hfind : (keptFiles files).find? fun f => f.name = g.name with
        | none =>
          have hnone := List.find?_eq_none.mp hfind g hkept
          simp at hnone
        | some f0 =>
          rw [hfind] at hgo
          have hf0mem : f0 ∈ keptFiles files := List.mem_of_find?_eq_some hfind
          have hf0name : f0.name = g.name := by
            have hx := List.find?_some hfind
            simpa using hx
          have hf0files : f0 ∈ files := (List.mem_filter.mp hf0mem).1
          have hfg : f0 = g := List.inj_on_of_nodup_map hnd hf0files hmem hf0name
          rw [hfg] at hgo
          simp [hgen] at hgo

/-- Witness data for C4: contents carrying the generated-code marker. -/
def genContent : String := "// Code generated by tool. DO NOT EDIT.\npackage p\n"

/-- Witness data for C4: a generated file declaring a function with an
obviously unused parameter. -/
def genFile : SrcFile :=
  { name := "gen.go", content := genContent, readable := true,
    parsed := some
      { pkg := "p",
        funcs := [{ recv := none,
                    params := ⟨[⟨[⟨"x", ⟨"gen.go", 3, 8⟩⟩], some "int"⟩]⟩,
                    name := "g", pos := ⟨"gen.go", 3, 6⟩ }] } }

/-- Witness for C4: the run over the generated file reports nothing from
it, although its parameter `x` is unused. -/
theorem generated_file_suppressed_witness :
    ((runAnalysis false [genFile] (fun _ => []) (fun _ => false)).findings.all
      fun fd => fd.position.filename != "gen.go") = true := by
  rw [List.all_eq_true]
  intro fd hfd
  have h := generated_file_suppressed false [genFile] (fun _ => []) (fun _ => false) genFile
    (by simp) rfl (by decide) (by decide) fd hfd
  simpa using h

/-- Every finding emitted for a package carries that package's name. -/
theorem emitPkg_mem_pkg {genOf : String → Bool} {pkg : String} {rs : List Result}
    {fd : Finding} (h : fd ∈ emitPkg genOf pkg rs) : fd.pkg = pkg := by
  unfold emitPkg at h
  rw [List.mem_map] at h
  obtain ⟨r, -, rfl⟩ := h
  rfl

/-- The results of one package are sorted by the enclosing function's
(filename, line, column), allowing ties. -/
theorem makeResult_pairwise (ts : List (Position × Target)) (us : List Use) :
    (makeResult ts us).Pairwise fun r s => posLe r.funcPosition s.funcPosition = true := by
  unfold makeResult
  apply List.Pairwise.map (S := fun r s : Result => posLe r.funcPosition s.funcPosition = true)
  · intro a b hab
    exact hab
  · exact sortLe_pairwise targetLe targetLe_total targetLe_trans _

/-- The full report is grouped by package name in strictly ascending
order, and within one package ordered by the function position key. -/
theorem printResults_pairwise (pfiles : List ParsedData) (uses : String → List Use)
    (genOf : String → Bool) :
    (printResults pfiles uses genOf).Pairwise fun fd gd =>
      strLess fd.pkg gd.pkg = true ∨
        (fd.pkg = gd.pkg ∧ posLe fd.funcPosition gd.funcPosition = true) := by
  unfold printResults
  rw [List.pairwise_flatMap]
  constructor
  · intro pkg _
    have h1 := makeResult_pairwise (buildTargets pfiles pkg) (uses pkg)
    have h2 := h1.filter fun r => r.uses.isEmpty && !genOf r.position.filename
    unfold emitPkg
    apply List.Pairwise.map
    · intro a b hab
      exact Or.inr ⟨rfl, hab⟩
    · exact h2
  · have hsorted := sortLe_pairwise stringLe stringLe_total stringLe_trans (pkgNames pfiles)
    have hnodup : (sortLe stringLe (pkgNames pfiles)).Nodup :=
      ((sortLe_perm stringLe (pkgNames pfiles)).symm).nodup (List.nodup_dedup _)
    have hstrict : (sortLe stringLe (pkgNames pfiles)).Pairwise fun a b =>
        strLess a b = true := by
      refine (hsorted.and hnodup).imp ?_
      rintro a b ⟨hle, hne⟩
      cases hx : strLess a b with
      | true => rfl
      | false =>
        have hy : strLess b a = false := by simpa [stringLe] using hle
        exact absurd (strLess_conn hx hy) hne
    refine hstrict.imp ?_
    intro p q hpq x hx y hy
    rw [emitPkg_mem_pkg hx, emitPkg_mem_pkg hy]
    exact Or.inl hpq

/-- C2 (amended): the findings of a run appear grouped by package name in
ascending order, and within one package ordered by the file path, line
and column of the enclosing function's declaration position (findings of
the same function may tie). -/
theorem findings_grouped_by_pkg_then_position (strict : Bool) (files : List SrcFile)
    (uses : String → List Use) (warn : String → Bool) :
    (runAnalysis strict files uses warn).findings.Pairwise fun fd gd =>
      strLess fd.pkg gd.pkg = true ∨
        (fd.pkg = gd.pkg ∧ posLe fd.funcPosition gd.funcPosition = true) := by
  unfold runAnalysis
  split
  · exact List.Pairwise.nil
  · split
    · exact List.Pairwise.nil
    · split
      · exact List.Pairwise.nil
      · exact printResults_pairwise _ _ _

/-- Counterexample data for C2: a file of package `alpha` with path
`z.go` whose function `fz` has an unused parameter. -/
def pkgAlphaFile : SrcFile :=
  { name := "z.go", content := "package alpha\n", readable := true,
    parsed := some
      { pkg := "alpha",
        funcs := [{ recv := none,
                    params := ⟨[⟨[⟨"x", ⟨"z.go", 1, 12⟩⟩], some "int"⟩]⟩,
                    name := "fz", pos := ⟨"z.go", 1, 6⟩ }] } }

/-- Counterexample data for C2: a file of package `beta` with path `a.go`
whose function `fa` has an unused parameter. -/
def pkgBetaFile : SrcFile :=
  { name := "a.go", content := "package beta\n", readable := true,
    parsed := some
      { pkg := "beta",
        funcs := [{ recv := none,
                    params := ⟨[⟨[⟨"y", ⟨"a.go", 1, 12⟩⟩], some "int"⟩]⟩,
                    name := "fa", pos := ⟨"a.go", 1, 6⟩ }] } }

/-- Counterexample for C2: the report lines of one run are not in a total
order led by the file path — package `alpha` (file `z.go`) prints before
package `beta` (file `a.go`), so a line for `z.go` precedes a line for
`a.go`. -/
theorem report_not_ordered_by_file_first :
    ¬ (runAnalysis false [pkgAlphaFile, pkgBetaFile] (fun _ => [])
          (fun _ => false)).findings.Pairwise fun fd gd =>
        posLe fd.funcPosition gd.funcPosition = true := by
  decide

/-- Counterexample data for C3: a supplied file that cannot be read. -/
def unreadableFile : SrcFile :=
  { name := "gone.go", content := "", readable := false, parsed := none }

/-- Counterexample for C3: in non-strict mode a run in which a supplied
file was skipped (read failure) but no finding was produced exits with
status 0, not 1 as the claim requires. -/
theorem skipped_files_exit_zero :
    (runAnalysis false [unreadableFile] (fun _ => []) (fun _ => false)).skipped =
        ["gone.go"] ∧
      (runAnalysis false [unreadableFile] (fun _ => []) (fun _ => false)).findings = [] ∧
      (runAnalysis false [unreadableFile] (fun _ => []) (fun _ => false)).exit = 0 := by
  decide

/-- C3 (amended): counters not summing to 1 exit with the distinct usage
status 2; otherwise the run's exit status is 0 exactly when it was not
fatal and printed no finding, and 1 exactly when it was fatal or printed
a finding; a fatal run is exactly a strict-mode read failure, a parse
failure (in either mode), or a strict-mode type-check failure.  Files
skipped in non-strict mode do not by themselves affect the status. -/
theorem exit_status_characterization (strict : Bool) (d f p : Nat) (files : List SrcFile)
    (uses : String → List Use) (warn : String → Bool) :
    (d + f + p ≠ 1 → mainRun strict d f p files uses warn =
        { exit := 2, fatal := false, findings := [], skipped := [] }) ∧
    (d + f + p = 1 →
      mainRun strict d f p files uses warn = runAnalysis strict files uses warn) ∧
    ((runAnalysis strict files uses warn).fatal = true ↔
      ((strict && files.any fun fl => !fl.readable) = true ∨
        ((keptFiles files).any fun fl => fl.parsed.isNone) = true ∨
        (strict && (pkgNames (parsedOf files)).any warn) = true)) ∧
    ((runAnalysis strict files uses warn).exit = 0 ↔
      (runAnalysis strict files uses warn).fatal = false ∧
        (runAnalysis strict files uses warn).findings = []) ∧
    ((runAnalysis strict files uses warn).exit = 1 ↔
      ((runAnalysis strict files uses warn).fatal = true ∨
        (runAnalysis strict files uses warn).findings ≠ [])) := by
  refine ⟨fun h => by simp [mainRun, h], fun h => by simp [mainRun, h], ?_⟩
  unfold runAnalysis
  split_ifs with c1 c2 c3 c4
  · simp [c1]
  · simp [c1, c2]
  · simp [c1, c2, c3]
  · rw [List.isEmpty_iff] at c4
    simp [c1, c2, c3, c4]
  · simp only [List.isEmpty_iff] at c4
    simp [c1, c2, c3, c4]

/-- Witness for C3 (amended) at concrete inputs: a malformed argument
classification exits 2, and a non-strict run that skipped its only file
exits 0. -/
theorem exit_status_characterization_witness :
    mainRun false 2 0 0 [] (fun _ => []) (fun _ => false) =
        { exit := 2, fatal := false, findings := [], skipped := [] } ∧
      (runAnalysis false [unreadableFile] (fun _ => []) (fun _ => false)).exit = 0 := by
  refine ⟨(exit_status_characterization false 2 0 0 [] (fun _ => []) (fun _ => false)).1
      (by decide), ?_⟩
  have h := (exit_status_characterization false 0 0 0 [unreadableFile] (fun _ => [])
      (fun _ => false)).2.2.2.1
  exact h.mpr ⟨by decide, by decide⟩

/-- Data for C6: a valid file with an unused parameter. -/
def goodFile : SrcFile :=
  { name := "good.go", content := "package q\n", readable := true,
    parsed := some
      { pkg := "q",
        funcs := [{ recv := none,
                    params := ⟨[⟨[⟨"x", ⟨"good.go", 1, 8⟩⟩], some "int"⟩]⟩,
                    name := "g", pos := ⟨"good.go", 1, 6⟩ }] } }

/-- Data for C6: a file the parser rejects. -/
def badFile : SrcFile :=
  { name := "bad.go", content := "package q\nfunc fn(", readable := true, parsed := none }

/-- C6 (code bug): with `-strict` off, a parse failure on one supplied
file is fatal to the whole run: `usages.Find` returns the parse error and
`handleFiles` calls `log.Fatal` unconditionally, so the run exits 1 with
no findings — although the well-formed file analyzed alone produces a
finding, and the `-strict` flag's help text promises that non-strict runs
skip unparsable files instead. -/
theorem parse_failure_fatal_nonstrict :
    runAnalysis false [goodFile, badFile] (fun _ => []) (fun _ => false) =
        { exit := 1, fatal := true, findings := [], skipped := [] } ∧
      (runAnalysis false [goodFile] (fun _ => []) (fun _ => false)).findings ≠ [] := by
  constructor
  · decide
  · decide

/-- Data for C8: first of two unused parameters of one function — the
targets share the function position, so the sort comparator ties. -/
def tieTargetA : Target :=
  { funcInput :=
      { ident := { name := "a", namePos := ⟨"p.go", 1, 8⟩ },
        typeName := some "int", kind := FuncParam, pos := ⟨"p.go", 1, 8⟩ },
    funcPosition := ⟨"p.go", 1, 6⟩, funcName := "f", uses := [] }

/-- Data for C8: the second unused parameter of the same function. -/
def tieTargetB : Target :=
  { funcInput :=
      { ident := { name := "b", namePos := ⟨"p.go", 1, 11⟩ },
        typeName := some "int", kind := FuncParam, pos := ⟨"p.go", 1, 11⟩ },
    funcPosition := ⟨"p.go", 1, 6⟩, funcName := "f", uses := [] }

/-- C8 (code bug): the comparator passed to `sort.Slice` compares only
the function position, so two unused inputs of one function tie; both
orders are valid `sort.Slice` outcomes of the same target set, and they
render different report bytes — the output depends on the map iteration
order feeding the unstable sort, not only on the input files. -/
theorem sort_tie_output_not_determined :
    sortSliceSpec targetLess [tieTargetA, tieTargetB] [tieTargetA, tieTargetB] ∧
      sortSliceSpec targetLess [tieTargetA, tieTargetB] [tieTargetB, tieTargetA] ∧
      renderReport (emitPkg (fun _ => false) "p"
          ([tieTargetA, tieTargetB].map resultOfTarget)) ≠
        renderReport (emitPkg (fun _ => false) "p"
          ([tieTargetB, tieTargetA].map resultOfTarget)) := by
  refine ⟨⟨List.Perm.refl _, by decide⟩, ⟨List.Perm.swap _ _ _, by decide⟩, by decide⟩
